import Mathlib

/-!
Verification of the core transforms of `scripts/rank_required_courses.py`:
the minimal OOXML cell reader (`col_index`, `read_shared_strings`,
`read_sheet_rows`) and the minimal PNG encoder (`chunk`, `make_png`).
Bytes are modelled as natural numbers (values < 256 where relevant),
byte strings as lists of naturals, strings as Lean `String`s, and the
already-parsed XML trees as an inductive of elements with a tag, an
attribute list, optional text and a child list.
-/

set_option maxRecDepth 100000

namespace RankCourses

/-! ## Byte-level helpers for the PNG encoder -/

/-- Big-endian 4-byte encoding of a natural number, as produced by
`struct.pack("!I", n)` for `n < 2^32`. -/
def be32 (n : Nat) : List Nat :=
  [n / 2 ^ 24 % 256, n / 2 ^ 16 % 256, n / 2 ^ 8 % 256, n % 256]

/-- One bit-step of the reflected CRC-32 with polynomial `0xEDB88320`. -/
def crcStep (crc : Nat) : Nat :=
  if crc % 2 = 1 then Nat.xor (crc / 2) 0xEDB88320 else crc / 2

/-- Absorb one byte into the running CRC-32 state. -/
def crcByte (crc b : Nat) : Nat :=
  crcStep^[8] (Nat.xor crc (b % 256))

/-- CRC-32 of a byte sequence: the standard zip/deflate-family checksum
(reflected polynomial `0xEDB88320`, initial value and final xor
`0xFFFFFFFF`), as computed by Python's `zlib.crc32(data) & 0xFFFFFFFF`. -/
def crc32 (data : List Nat) : Nat :=
  Nat.xor (data.foldl crcByte 0xFFFFFFFF) 0xFFFFFFFF

/-! ## The PNG encoder (`make_png` and its inner `chunk`) -/

/-- The inner `chunk` helper of `make_png`:
`struct.pack("!I", len(data)) + tag + data + struct.pack("!I", zlib.crc32(tag + data) & 0xFFFFFFFF)`. -/
def chunk (tag data : List Nat) : List Nat :=
  be32 data.length ++ tag ++ data ++ be32 (crc32 (tag ++ data))

/-- The fixed 8-byte PNG signature `b"\x89PNG\r\n\x1a\n"`. -/
def pngSignature : List Nat := [0x89, 0x50, 0x4E, 0x47, 0x0D, 0x0A, 0x1A, 0x0A]

/-- The 4 tag bytes of `b"IHDR"`. -/
def ihdrTag : List Nat := [0x49, 0x48, 0x44, 0x52]

/-- The 4 tag bytes of `b"IDAT"`. -/
def idatTag : List Nat := [0x49, 0x44, 0x41, 0x54]

/-- The 4 tag bytes of `b"IEND"`. -/
def iendTag : List Nat := [0x49, 0x45, 0x4E, 0x44]

/-- The IHDR data `struct.pack("!IIBBBBB", width, height, 8, 2, 0, 0, 0)`. -/
def ihdrData (width height : Nat) : List Nat :=
  be32 width ++ be32 height ++ [8, 2, 0, 0, 0]

/-- The expression `b"".join(b"\x00" + row for row in rgb_rows)`: the raw pre-compression
stream, each scanline prefixed by the filter byte 0. -/
def rawStream (rgb_rows : List (List Nat)) : List Nat :=
  (rgb_rows.map (fun row => 0 :: row)).flatten

/-- The byte content written by `make_png`, with the deflate-family
compressor `zlib.compress(·, 9)` abstracted as the parameter `compress`
(its exact output is an implementation detail of zlib; `make_png` uses it
only as a black-box byte transform). -/
def make_png (compress : List Nat → List Nat) (width height : Nat)
    (rgb_rows : List (List Nat)) : List Nat :=
  pngSignature ++ chunk ihdrTag (ihdrData width height)
    ++ chunk idatTag (compress (rawStream rgb_rows))
    ++ chunk iendTag []

/-! ## The cell-reference codec `col_index` -/

/-- Python `col_index(cell_ref)`: keep the alphabetic characters, fold
`value = value*26 + (ord(ch.upper()) - 64)` over them, return `value - 1`.
The result is an `Int` because Python returns `-1` when no letter occurs. -/
def col_index (cell_ref : String) : Int :=
  let letters := cell_ref.data.filter Char.isAlpha
  let value : Nat := letters.foldl (fun v c => v * 26 + (c.toUpper.toNat - 64)) 0
  (value : Int) - 1

/-! ## XML document model

`xml.etree.ElementTree` elements, restricted to what the two readers
inspect: tag, attributes, text and children. Namespace-qualified lookups
(`"x:si"` etc.) are modelled by the local tag names. -/

inductive Xml where
  | elem (tag : String) (attrs : List (String × String)) (text : Option String)
      (children : List Xml)
deriving Repr

instance : Inhabited Xml := ⟨Xml.elem "" [] none []⟩

def Xml.tag : Xml → String
  | .elem t _ _ _ => t

def Xml.attrs : Xml → List (String × String)
  | .elem _ a _ _ => a

def Xml.text : Xml → Option String
  | .elem _ _ t _ => t

def Xml.children : Xml → List Xml
  | .elem _ _ _ c => c

/-- The `element.attrib.get(key)` / `element.attrib[key]` lookup. -/
def attrGet (attrs : List (String × String)) (key : String) : Option String :=
  (attrs.find? (fun p => p.1 = key)).map (fun p => p.2)

/-- Python `element.findall(tag)`: the direct children with the given tag,
in document order. -/
def childrenTagged (x : Xml) (t : String) : List Xml :=
  x.children.filter (fun c => c.tag = t)

/-- Python `element.find(tag)`: the first direct child with the given tag. -/
def findChild (x : Xml) (t : String) : Option Xml :=
  (childrenTagged x t).head?

mutual

/-- All proper descendants of an element in document (pre-)order. -/
def xmlDesc : Xml → List Xml
  | .elem _ _ _ cs => xmlDescList cs

def xmlDescList : List Xml → List Xml
  | [] => []
  | c :: cs => c :: (xmlDesc c ++ xmlDescList cs)

end

/-- Python `element.findall(".//t")`: all descendants tagged `t`, document order. -/
def descTagged (x : Xml) (t : String) : List Xml :=
  (xmlDesc x).filter (fun c => c.tag = t)

/-! ## `read_shared_strings` -/

/-- The string contributed by one `<si>` pool entry: the concatenation of
`node.text or ""` over the `<t>` descendants found by `si.findall(".//x:t")`. -/
def siText (si : Xml) : String :=
  String.join ((descTagged si "t").map (fun node => node.text.getD ""))

/-- The function `read_shared_strings`: `none` models the member `xl/sharedStrings.xml`
being absent from the zip container (the function returns `[]`);
`some root` is the parsed document root. -/
def read_shared_strings : Option Xml → List String
  | none => []
  | some root => (childrenTagged root "si").map siText

/-! ## `read_sheet_rows` -/

/-- The Python exceptions the reader can raise. -/
inductive PyErr where
  | keyError (key : String)
  | typeError
  | valueError
  | indexError
  | attributeError
deriving Repr, DecidableEq

/-- Python `int(s)` restricted to plain decimal literals with an optional
leading minus sign (the only shape shared-string indices take);
`none` models `ValueError`. -/
def pyInt (s : String) : Option Int :=
  match s.data with
  | '-' :: rest =>
    if rest ≠ [] ∧ rest.all Char.isDigit then
      some (-(rest.foldl (fun n c => n * 10 + (c.toNat - 48)) 0 : Nat))
    else none
  | l =>
    if l ≠ [] ∧ l.all Char.isDigit then
      some ((l.foldl (fun n c => n * 10 + (c.toNat - 48)) 0 : Nat))
    else none

/-- Python list subscription `l[i]`: non-negative indices are positional,
negative indices count from the end, anything out of range raises
`IndexError`. -/
def pyGet (l : List String) (i : Int) : Except PyErr String :=
  if 0 ≤ i then
    if i < (l.length : Int) then .ok (l.getD i.toNat "") else .error .indexError
  else
    if -(l.length : Int) ≤ i then .ok (l.getD ((l.length : Int) + i).toNat "")
    else .error .indexError

/-- The per-cell body of the loop in `read_sheet_rows`: compute the column
index from the `r` attribute, then record `""` when no `<v>` child exists,
resolve `shared_strings[int(v.text)]` when the type attribute is `"s"`,
and otherwise take `v.text or ""`. -/
def processCell (shared_strings : List String) (cell : Xml) :
    Except PyErr (Int × String) :=
  match attrGet cell.attrs "r" with
  | none => .error (.keyError "r")
  | some r =>
    let idx := col_index r
    match findChild cell "v" with
    | none => .ok (idx, "")
    | some v =>
      if attrGet cell.attrs "t" = some "s" then
        match v.text with
        | none => .error .typeError
        | some s =>
          match pyInt s with
          | none => .error .valueError
          | some i => (pyGet shared_strings i).map (fun str => (idx, str))
      else .ok (idx, v.text.getD "")

/-- Python dict assignment `d[k] = v`: replace in place if the key exists,
otherwise append. -/
def dictInsert (m : List (Int × String)) (k : Int) (v : String) :
    List (Int × String) :=
  if m.any (fun p => p.1 = k) then
    m.map (fun p => if p.1 = k then (k, v) else p)
  else m ++ [(k, v)]

/-- Python dict lookup `d.get(k)`. -/
def dictGet (m : List (Int × String)) (k : Int) : Option String :=
  (m.find? (fun p => p.1 = k)).map (fun p => p.2)

/-- The inner loop of `read_sheet_rows` over the `<c>` cells of one row,
generalized over the dictionary accumulated so far (the Python loop body
`row_values[idx] = …` run left to right). -/
def processCellsFrom (shared_strings : List String)
    (init : List (Int × String)) (cells : List Xml) :
    Except PyErr (List (Int × String)) :=
  cells.foldlM
    (fun m cell => (processCell shared_strings cell).map
      (fun p => dictInsert m p.1 p.2)) init

/-- The inner loop of `read_sheet_rows` over the `<c>` cells of one row,
building the row's `dict[int, str]` starting from the empty dict. -/
def processCells (shared_strings : List String) (cells : List Xml) :
    Except PyErr (List (Int × String)) :=
  processCellsFrom shared_strings [] cells

/-- One `<row>` element of the sheet: process its `<c>` cells in order. -/
def processRow (shared_strings : List String) (rowEl : Xml) :
    Except PyErr (List (Int × String)) :=
  processCells shared_strings (childrenTagged rowEl "c")

/-- The function `read_sheet_rows`, taking the already-parsed worksheet root and the
shared-string pool: find `<sheetData>` (Python raises `AttributeError` on
a missing one), then process each `<row>` in document order. -/
def read_sheet_rows (sheet_xml : Xml) (shared_strings : List String) :
    Except PyErr (List (List (Int × String))) :=
  match findChild sheet_xml "sheetData" with
  | none => .error .attributeError
  | some sheetData =>
    (childrenTagged sheetData "row").mapM
      (fun rowEl => processCells shared_strings (childrenTagged rowEl "c"))

/-! ## Statement vocabulary for the `col_index` ordering claim -/

/-- A nonempty run of uppercase ASCII letters. -/
def upperRun (s : String) : Prop :=
  s.data ≠ [] ∧ ∀ c ∈ s.data, c.isUpper = true

/-- The spreadsheet column ordering: shorter runs first, equal lengths
compared lexicographically (A, B, …, Z, AA, AB, …). -/
def shortlexLt (s1 s2 : String) : Prop :=
  s1.data.length < s2.data.length ∨
    (s1.data.length = s2.data.length ∧ List.Lex (· < ·) s1.data s2.data)

/-- The base-26 value accumulated by `col_index` over a run of uppercase
letters (for which `ch.upper()` is the identity). -/
def upVal (l : List Char) : Nat :=
  l.foldl (fun v c => v * 26 + (c.toNat - 64)) 0

/-- Here `lo n` is the value of the length-`n` run `"A…A"`, the smallest
base-26 value of any length-`n` run: `lo n = (26^n - 1) / 25`. -/
def lo : Nat → Nat
  | 0 => 0
  | n + 1 => 26 * lo n + 1

/-! ## Concrete fixtures -/

/-- A worksheet whose single cell has the letterless reference `"123"`. -/
def noLetterSheet : Xml :=
  Xml.elem "worksheet" [] none
    [Xml.elem "sheetData" [] none
      [Xml.elem "row" [] none
        [Xml.elem "c" [("r", "123")] none
          [Xml.elem "v" [] (some "hi") []]]]]

/-! ## C1–C3: the PNG encoder -/

/-- C1: for any compressor, width `w ≥ 1`, height `h ≥ 1` and pixel rows of
length `w*3` each, `make_png` emits exactly the 8-byte signature, then the
IHDR chunk with big-endian width, big-endian height and the bytes
`8, 2, 0, 0, 0`, then the IDAT chunk holding the compression of the
filter-byte-prefixed scanlines, then the empty IEND chunk, in that order. -/
theorem make_png_structure (compress : List Nat → List Nat) (width height : Nat)
    (rgb_rows : List (List Nat)) (hw : 1 ≤ width) (hh : 1 ≤ height)
    (hrows : ∀ row ∈ rgb_rows, row.length = width * 3) :
    make_png compress width height rgb_rows =
      pngSignature
        ++ chunk ihdrTag (be32 width ++ be32 height ++ [8, 2, 0, 0, 0])
        ++ chunk idatTag (compress ((rgb_rows.map (fun row => 0 :: row)).flatten))
        ++ chunk iendTag [] := rfl

/-- Witness for C1 at a 1×1 all-black buffer with the identity compressor. -/
theorem make_png_structure_witness :
    make_png (fun l => l) 1 1 [[0, 0, 0]] =
      pngSignature
        ++ chunk ihdrTag (be32 1 ++ be32 1 ++ [8, 2, 0, 0, 0])
        ++ chunk idatTag (([[0, 0, 0]].map (fun row => 0 :: row)).flatten)
        ++ chunk iendTag [] :=
  make_png_structure (fun l => l) 1 1 [[0, 0, 0]] (by decide) (by decide)
    (by decide)

/-- C2: each chunk is framed as a 4-byte big-endian length of the data
(tag not counted), the tag, the data, and a 4-byte big-endian CRC-32 over
tag++data (length excluded); the CRC-32 used is the standard
zip/deflate-family one, witnessed by the check value of `"123456789"`. -/
theorem chunk_framing :
    (∀ tag data : List Nat,
      chunk tag data =
        be32 data.length ++ tag ++ data ++ be32 (crc32 (tag ++ data))) ∧
    crc32 [0x31, 0x32, 0x33, 0x34, 0x35, 0x36, 0x37, 0x38, 0x39] = 0xCBF43926 :=
  ⟨fun _ _ => rfl, by decide⟩

/-- C3 counterexample: with a scanline of length 1 ≠ width*3 = 3 the
encoder does not fail with zero output bytes — it emits a complete file
starting with the signature. -/
theorem make_png_invalid_geometry_emits_bytes :
    make_png (fun l => l) 1 1 [[0]] ≠ [] ∧
    (make_png (fun l => l) 1 1 [[0]]).take 8 = pngSignature := by
  constructor
  · intro h
    simp [make_png, pngSignature] at h
  · rfl

/-- C3 amended: the encoder performs no geometry validation at all — for
every width, height and pixel buffer (including mismatched scanline
lengths and zero dimensions) it emits the complete signature-plus-chunks
file, never zero bytes. -/
theorem make_png_never_fails (compress : List Nat → List Nat)
    (width height : Nat) (rgb_rows : List (List Nat)) :
    make_png compress width height rgb_rows =
      pngSignature
        ++ chunk ihdrTag (ihdrData width height)
        ++ chunk idatTag (compress (rawStream rgb_rows))
        ++ chunk iendTag [] ∧
    (make_png compress width height rgb_rows).take 8 = pngSignature ∧
    make_png compress width height rgb_rows ≠ [] := by
  refine ⟨rfl, rfl, ?_⟩
  intro h
  simp [make_png, pngSignature] at h

/-! ## C4: the base-26 column codec -/

/-- C4: `col_index` folds `value*26 + digit` (digits `A=1..Z=26`) over the
letters of the reference in order and returns `value - 1`; non-letter
characters are ignored; and the four concrete values of the spec hold. -/
theorem col_index_base26 :
    (∀ r : String, r.data.filter Char.isAlpha ≠ [] →
      col_index r =
        (((r.data.filter Char.isAlpha).foldl
          (fun v c => v * 26 + (c.toUpper.toNat - 64)) 0 : Nat) : Int) - 1) ∧
    (∀ r : String, col_index r = col_index ⟨r.data.filter Char.isAlpha⟩) ∧
    col_index "A" = 0 ∧ col_index "Z" = 25 ∧ col_index "AA" = 26 ∧
    col_index "AMJ" = 1023 := by
  refine ⟨fun r _ => rfl, fun r => ?_, by decide, by decide, by decide, by decide⟩
  simp only [col_index, List.filter_filter, Bool.and_self]

/-- Witness for C4 at the reference `"B7"` (letters nonempty). -/
theorem col_index_base26_witness :
    col_index "B7" =
      ((("B7".data.filter Char.isAlpha).foldl
        (fun v c => v * 26 + (c.toUpper.toNat - 64)) 0 : Nat) : Int) - 1 :=
  col_index_base26.1 "B7" (by decide)

/-! ## Helper lemmas about the row dictionary -/

theorem dictGet_cons (p : Int × String) (m : List (Int × String)) (k : Int) :
    dictGet (p :: m) k = if p.1 = k then some p.2 else dictGet m k := by
  by_cases hp : p.1 = k
  · rw [if_pos hp]; unfold dictGet
    rw [List.find?_cons_of_pos _ (by simpa using hp)]; rfl
  · rw [if_neg hp]; unfold dictGet
    rw [List.find?_cons_of_neg _ (by simpa using hp)]

theorem dictGet_nil (k : Int) : dictGet [] k = none := rfl

theorem dictGet_map_replace (m : List (Int × String)) (k : Int) (v : String)
    (h : m.any (fun p => p.1 = k) = true) :
    dictGet (m.map (fun p => if p.1 = k then (k, v) else p)) k = some v := by
  induction m with
  | nil => simp at h
  | cons p t ih =>
    simp only [List.any_cons, Bool.or_eq_true, decide_eq_true_eq] at h
    simp only [List.map_cons]
    by_cases hp : p.1 = k
    · rw [if_pos hp, dictGet_cons, if_pos rfl]
    · rw [if_neg hp, dictGet_cons, if_neg hp]
      exact ih (h.resolve_left hp)

theorem dictGet_append_single (m : List (Int × String)) (k : Int) (v : String) :
    dictGet (m ++ [(k, v)]) k = some v ∨ (m.any (fun p => p.1 = k) = true) := by
  induction m with
  | nil => left; rw [List.nil_append, dictGet_cons, if_pos rfl]
  | cons p t ih =>
    by_cases hp : p.1 = k
    · right; simp [hp]
    · rcases ih with ih | ih
      · left; rw [List.cons_append, dictGet_cons, if_neg hp]; exact ih
      · right; simp [ih]

theorem dictGet_dictInsert_self (m : List (Int × String)) (k : Int) (v : String) :
    dictGet (dictInsert m k v) k = some v := by
  unfold dictInsert
  split
  next h => exact dictGet_map_replace m k v h
  next h =>
    rcases dictGet_append_single m k v with h' | h'
    · exact h'
    · exact absurd h' h

theorem dictGet_map_replace_ne (m : List (Int × String)) (k k' : Int)
    (v : String) (h : k ≠ k') :
    dictGet (m.map (fun p => if p.1 = k then (k, v) else p)) k' = dictGet m k' := by
  induction m with
  | nil => rfl
  | cons p t ih =>
    simp only [List.map_cons]
    by_cases hp : p.1 = k
    · rw [if_pos hp, dictGet_cons, if_neg h, dictGet_cons,
        if_neg (by rw [hp]; exact h)]
      exact ih
    · rw [if_neg hp, dictGet_cons, dictGet_cons]
      by_cases hp' : p.1 = k'
      · rw [if_pos hp', if_pos hp']
      · rw [if_neg hp', if_neg hp']; exact ih

theorem dictGet_append_single_ne (m : List (Int × String)) (k k' : Int)
    (v : String) (h : k ≠ k') :
    dictGet (m ++ [(k, v)]) k' = dictGet m k' := by
  induction m with
  | nil => rw [List.nil_append, dictGet_cons, if_neg h]
  | cons p t ih =>
    rw [List.cons_append, dictGet_cons, dictGet_cons]
    by_cases hp' : p.1 = k'
    · rw [if_pos hp', if_pos hp']
    · rw [if_neg hp', if_neg hp']; exact ih

theorem dictGet_dictInsert_ne (m : List (Int × String)) (k k' : Int)
    (v : String) (h : k ≠ k') :
    dictGet (dictInsert m k v) k' = dictGet m k' := by
  unfold dictInsert
  split
  · exact dictGet_map_replace_ne m k k' v h
  · exact dictGet_append_single_ne m k k' v h

/-! ## Helper lemmas about `processCell` and the cell loop -/

theorem processCellsFrom_nil (shared : List String) (init : List (Int × String)) :
    processCellsFrom shared init [] = .ok init := rfl

theorem processCellsFrom_cons (shared : List String) (init : List (Int × String))
    (c : Xml) (cs : List Xml) :
    processCellsFrom shared init (c :: cs) =
      (processCell shared c).map (fun p => dictInsert init p.1 p.2) >>= fun m1 =>
        processCellsFrom shared m1 cs := by
  unfold processCellsFrom
  rw [List.foldlM_cons]

theorem processCellsFrom_append (shared : List String)
    (init : List (Int × String)) (l1 l2 : List Xml) :
    processCellsFrom shared init (l1 ++ l2) =
      processCellsFrom shared init l1 >>= fun m0 =>
        processCellsFrom shared m0 l2 := by
  unfold processCellsFrom
  rw [List.foldlM_append]

/-- Any successful `processCell` outcome carries the column index computed
by `col_index` from the cell's `r` attribute. -/
theorem processCell_ok_col (shared : List String) (cell : Xml) (i : Int)
    (s : String) (h : processCell shared cell = .ok (i, s)) :
    ∃ r, attrGet cell.attrs "r" = some r ∧ i = col_index r := by
  unfold processCell at h
  split at h
  · exact absurd h (by simp)
  next r har =>
    refine ⟨r, har, ?_⟩
    split at h
    · simp only [Except.ok.injEq, Prod.mk.injEq] at h
      exact h.1.symm
    · split at h
      · split at h
        · exact absurd h (by simp)
        · split at h
          · exact absurd h (by simp)
          next i' hpi =>
            rcases hpg : pyGet shared i' with e | str
            · rw [hpg] at h
              exact absurd h (by simp [Except.map])
            · rw [hpg] at h
              simp only [Except.map, Except.ok.injEq, Prod.mk.injEq] at h
              exact h.1.symm
      · simp only [Except.ok.injEq, Prod.mk.injEq] at h
        exact h.1.symm

/-- A cell with an `r` attribute and no `<v>` child is recorded as the
empty string at its column index. -/
theorem processCell_of_no_value (shared : List String) (cell : Xml) (r : String)
    (har : attrGet cell.attrs "r" = some r) (hv : findChild cell "v" = none) :
    processCell shared cell = .ok (col_index r, "") := by
  simp [processCell, har, hv]

/-- A shared-string-typed cell with a parsed index resolves through the
Python list lookup `pyGet`. -/
theorem processCell_shared_lookup (shared : List String) (cell : Xml)
    (r s : String) (v : Xml) (i : Int)
    (har : attrGet cell.attrs "r" = some r)
    (hv : findChild cell "v" = some v)
    (ht : attrGet cell.attrs "t" = some "s")
    (htext : v.text = some s) (hpi : pyInt s = some i) :
    processCell shared cell = (pyGet shared i).map (fun str => (col_index r, str)) := by
  simp [processCell, har, hv, ht, htext, hpi]

/-- Loop invariant: a column index no cell of the row refers to stays
absent from the row dictionary. -/
theorem processCellsFrom_get_none (shared : List String) (k : Int) :
    ∀ (cells : List Xml) (init m : List (Int × String)),
      processCellsFrom shared init cells = .ok m →
      (∀ c ∈ cells, ∀ r, attrGet c.attrs "r" = some r → col_index r ≠ k) →
      dictGet init k = none → dictGet m k = none := by
  intro cells
  induction cells with
  | nil =>
    intro init m h _ hinit
    rw [processCellsFrom_nil] at h
    injection h with h
    rwa [← h]
  | cons c cs ih =>
    intro init m h hc hinit
    rw [processCellsFrom_cons] at h
    rcases hpc : processCell shared c with e | p
    · rw [hpc] at h
      exact absurd h (by simp [Except.map, Bind.bind, Except.bind])
    · rw [hpc] at h
      simp only [Except.map, Bind.bind, Except.bind] at h
      apply ih _ _ h
      · intro c' hc' r har
        exact hc c' (List.mem_cons_of_mem _ hc') r har
      · obtain ⟨r, har, hpr⟩ :=
          processCell_ok_col shared c p.1 p.2 (by rw [hpc])
        rw [dictGet_dictInsert_ne _ _ _ _ ?_]
        · exact hinit
        · rw [hpr]
          exact hc c (List.mem_cons_self c cs) r har

/-! ## C6: shared-string pool parsing -/

/-- C6: an absent shared-strings member yields the empty pool; otherwise
the result has one string per `<si>` pool entry in document order, the
`i`-th being the separator-free concatenation of the entry's `<t>` text
runs in document order; an entry with no text runs yields `""` at its
position rather than being omitted. -/
theorem shared_strings_parse :
    read_shared_strings none = [] ∧
    (∀ root : Xml,
      (read_shared_strings (some root)).length =
        (childrenTagged root "si").length) ∧
    (∀ (root : Xml) (i : Nat), i < (childrenTagged root "si").length →
      (read_shared_strings (some root)).getD i "" =
        siText ((childrenTagged root "si").getD i default)) ∧
    (∀ si : Xml, descTagged si "t" = [] → siText si = "") := by
  refine ⟨rfl, fun root => ?_, fun root i h => ?_, fun si h => ?_⟩
  · simp [read_shared_strings]
  · simp only [read_shared_strings]
    rw [List.getD_eq_getElem?_getD, List.getElem?_map,
      List.getElem?_eq_getElem h, List.getD_eq_getElem?_getD,
      List.getElem?_eq_getElem h]
    rfl
  · simp only [siText, h, List.map_nil]
    rfl

/-- Witness for C6: a pool with a two-run entry and an empty entry. -/
theorem shared_strings_parse_witness :
    (read_shared_strings (some (Xml.elem "sst" [] none
        [Xml.elem "si" [] none
          [Xml.elem "t" [] (some "ab") [], Xml.elem "t" [] (some "cd") []],
         Xml.elem "si" [] none []]))).getD 0 "" =
      siText ((childrenTagged (Xml.elem "sst" [] none
        [Xml.elem "si" [] none
          [Xml.elem "t" [] (some "ab") [], Xml.elem "t" [] (some "cd") []],
         Xml.elem "si" [] none []]) "si").getD 0 default) ∧
    siText (Xml.elem "si" [] none []) = "" :=
  ⟨shared_strings_parse.2.2.1 _ 0 (by decide),
   shared_strings_parse.2.2.2 _ rfl⟩

/-! ## C7: present cell node without value node -/

/-- C7: a cell node with no value node is recorded as the empty string at
its column index — so the row dictionary maps the last such cell's index
to `""`, while a column index no cell of the row refers to has no entry
at all. -/
theorem cell_without_value_node :
    (∀ (shared : List String) (cell : Xml) (r : String),
      attrGet cell.attrs "r" = some r → findChild cell "v" = none →
      processCell shared cell = .ok (col_index r, "")) ∧
    (∀ (shared : List String) (cells : List Xml) (cell : Xml) (r : String)
      (m : List (Int × String)),
      attrGet cell.attrs "r" = some r → findChild cell "v" = none →
      processCells shared (cells ++ [cell]) = .ok m →
      dictGet m (col_index r) = some "") ∧
    (∀ (shared : List String) (cells : List Xml) (m : List (Int × String))
      (k : Int),
      processCells shared cells = .ok m →
      (∀ c ∈ cells, ∀ r, attrGet c.attrs "r" = some r → col_index r ≠ k) →
      dictGet m k = none) := by
  refine ⟨processCell_of_no_value,
    fun shared cells cell r m har hv happ => ?_,
    fun shared cells m k h hc => processCellsFrom_get_none shared k cells [] m h hc rfl⟩
  unfold processCells at happ
  rw [processCellsFrom_append] at happ
  rcases hpre : processCellsFrom shared [] cells with e | m0
  · rw [hpre] at happ
    exact absurd happ (by simp [Bind.bind, Except.bind])
  · rw [hpre] at happ
    simp only [Bind.bind, Except.bind] at happ
    rw [processCellsFrom_cons, processCell_of_no_value shared cell r har hv] at happ
    simp only [Except.map, Bind.bind, Except.bind, processCellsFrom_nil] at happ
    injection happ with happ
    rw [← happ]
    exact dictGet_dictInsert_self m0 (col_index r) ""

/-- Witness for C7: a one-cell row whose cell `B1` has no value node. -/
theorem cell_without_value_node_witness :
    processCell [] (Xml.elem "c" [("r", "B1")] none []) =
      .ok (col_index "B1", "") ∧
    dictGet [((1 : Int), "")] (col_index "B1") = some "" ∧
    dictGet [] (0 : Int) = none :=
  ⟨cell_without_value_node.1 [] (Xml.elem "c" [("r", "B1")] none []) "B1" rfl rfl,
   cell_without_value_node.2.1 [] [] (Xml.elem "c" [("r", "B1")] none []) "B1"
     [((1 : Int), "")] rfl rfl rfl,
   cell_without_value_node.2.2 [] [] [] 0 rfl (by simp)⟩

/-! ## C8: out-of-range shared-string index -/

/-- C8: a shared-string-typed cell resolves by positional lookup
`shared_strings[i]`; when `i` is within range the looked-up string is
recorded, and when `i ≥ pool size` the cell fails with the fatal
`IndexError` (never clamped or defaulted), which aborts the row loop as
soon as it is reached. -/
theorem shared_string_lookup_fatal :
    ∀ (shared : List String) (cell : Xml) (r s : String) (v : Xml) (i : Int),
      attrGet cell.attrs "r" = some r →
      findChild cell "v" = some v →
      attrGet cell.attrs "t" = some "s" →
      v.text = some s → pyInt s = some i →
      ((0 ≤ i → i < (shared.length : Int) →
        processCell shared cell = .ok (col_index r, shared.getD i.toNat "")) ∧
      ((shared.length : Int) ≤ i →
        processCell shared cell = .error .indexError) ∧
      (∀ (pre post : List Xml) (m0 : List (Int × String)),
        processCells shared pre = .ok m0 → (shared.length : Int) ≤ i →
        processCells shared (pre ++ cell :: post) = .error .indexError)) := by
  intro shared cell r s v i har hv ht htext hpi
  have hpg := processCell_shared_lookup shared cell r s v i har hv ht htext hpi
  have herr : (shared.length : Int) ≤ i →
      processCell shared cell = .error .indexError := by
    intro hge
    rw [hpg]
    unfold pyGet
    rw [if_pos (le_trans (Int.natCast_nonneg _) hge), if_neg (not_lt.mpr hge)]
    rfl
  refine ⟨fun h0 hlen => ?_, herr, fun pre post m0 hpre hge => ?_⟩
  · rw [hpg]
    unfold pyGet
    rw [if_pos h0, if_pos hlen]
    rfl
  · unfold processCells at hpre ⊢
    rw [processCellsFrom_append, hpre]
    simp only [Bind.bind, Except.bind]
    rw [processCellsFrom_cons, herr hge]
    simp [Except.map, Bind.bind, Except.bind]

/-- Witness for C8: pool `["x"]`, in-range index 0 and out-of-range 1. -/
theorem shared_string_lookup_fatal_witness :
    processCell ["x"] (Xml.elem "c" [("r", "A1"), ("t", "s")] none
      [Xml.elem "v" [] (some "0") []]) = .ok (col_index "A1", "x") ∧
    processCell ["x"] (Xml.elem "c" [("r", "A1"), ("t", "s")] none
      [Xml.elem "v" [] (some "1") []]) = .error .indexError ∧
    processCells ["x"] ([] ++ Xml.elem "c" [("r", "A1"), ("t", "s")] none
      [Xml.elem "v" [] (some "1") []] :: []) = .error .indexError :=
  ⟨(shared_string_lookup_fatal ["x"]
      (Xml.elem "c" [("r", "A1"), ("t", "s")] none [Xml.elem "v" [] (some "0") []])
      "A1" "0" (Xml.elem "v" [] (some "0") []) 0 rfl rfl rfl rfl rfl).1
      (by decide) (by decide),
   (shared_string_lookup_fatal ["x"]
      (Xml.elem "c" [("r", "A1"), ("t", "s")] none [Xml.elem "v" [] (some "1") []])
      "A1" "1" (Xml.elem "v" [] (some "1") []) 1 rfl rfl rfl rfl rfl).2.1
      (by decide),
   (shared_string_lookup_fatal ["x"]
      (Xml.elem "c" [("r", "A1"), ("t", "s")] none [Xml.elem "v" [] (some "1") []])
      "A1" "1" (Xml.elem "v" [] (some "1") []) 1 rfl rfl rfl rfl rfl).2.2
      [] [] [] rfl (by decide)⟩

/-! ## C9: cell reference with no letters -/

/-- C9 counterexample: on a worksheet whose only cell has the letterless
reference `"123"`, the reader does not fail — it returns the parsed row,
with the cell recorded at column index `-1`. -/
theorem no_letter_ref_not_failing :
    read_sheet_rows noLetterSheet [] = .ok [[(-1, "hi")]] := by rfl

/-- C9 amended: a cell reference with no letters is silently accepted:
`col_index` returns `-1` and the cell is recorded at column index `-1`
in the row mapping (no failure is surfaced). -/
theorem no_letter_ref_accepted :
    (∀ r : String, r.data.filter Char.isAlpha = [] → col_index r = -1) ∧
    (∀ (shared : List String) (cell : Xml) (r : String),
      attrGet cell.attrs "r" = some r → r.data.filter Char.isAlpha = [] →
      findChild cell "v" = none →
      processCell shared cell = .ok (-1, "")) := by
  have hci : ∀ r : String, r.data.filter Char.isAlpha = [] → col_index r = -1 := by
    intro r h
    unfold col_index
    rw [h]
    rfl
  refine ⟨hci, fun shared cell r har hletters hv => ?_⟩
  rw [show ((-1 : Int), ("" : String)) = (col_index r, "") from by rw [hci r hletters]]
  exact processCell_of_no_value shared cell r har hv

/-- Witness for C9 at the reference `"123"`. -/
theorem no_letter_ref_accepted_witness :
    col_index "123" = -1 ∧
    processCell [] (Xml.elem "c" [("r", "123")] none []) = .ok (-1, "") :=
  ⟨no_letter_ref_accepted.1 "123" (by decide),
   no_letter_ref_accepted.2 [] (Xml.elem "c" [("r", "123")] none []) "123"
     rfl (by decide) rfl⟩

/-! ## C10: negative shared-string index -/

/-- C10: a shared-string cell whose parsed index `i` is negative with
`-pool_size ≤ i < 0` does not fail: it resolves to the pool entry at
position `pool_size + i`, Python's from-the-end indexing. -/
theorem negative_shared_index_resolves :
    ∀ (shared : List String) (cell : Xml) (r s : String) (v : Xml) (i : Int),
      attrGet cell.attrs "r" = some r →
      findChild cell "v" = some v →
      attrGet cell.attrs "t" = some "s" →
      v.text = some s → pyInt s = some i →
      -(shared.length : Int) ≤ i → i < 0 →
      processCell shared cell =
        .ok (col_index r, shared.getD ((shared.length : Int) + i).toNat "") := by
  intro shared cell r s v i har hv ht htext hpi hlb hub
  rw [processCell_shared_lookup shared cell r s v i har hv ht htext hpi]
  unfold pyGet
  rw [if_neg (not_le.mpr hub), if_pos hlb]
  rfl

/-- Witness for C10: pool `["a", "b"]` and index `-1` resolve to `"b"`. -/
theorem negative_shared_index_resolves_witness :
    processCell ["a", "b"] (Xml.elem "c" [("r", "A1"), ("t", "s")] none
      [Xml.elem "v" [] (some "-1") []]) =
      .ok (col_index "A1",
        ["a", "b"].getD (((["a", "b"] : List String).length : Int) + -1).toNat "") :=
  negative_shared_index_resolves ["a", "b"]
    (Xml.elem "c" [("r", "A1"), ("t", "s")] none [Xml.elem "v" [] (some "-1") []])
    "A1" "-1" (Xml.elem "v" [] (some "-1") []) (-1)
    rfl rfl rfl rfl (by decide) (by decide) (by decide)

/-! ## Helper lemmas for the `col_index` ordering claim -/

theorem char_lt_toNat (a b : Char) : a < b ↔ a.toNat < b.toNat := Iff.rfl

theorem isUpper_toNat (c : Char) :
    c.isUpper = true ↔ 65 ≤ c.toNat ∧ c.toNat ≤ 90 := by
  simp only [Char.isUpper, Bool.and_eq_true, decide_eq_true_eq, ge_iff_le]
  exact ⟨fun ⟨h1, h2⟩ => ⟨h1, h2⟩, fun ⟨h1, h2⟩ => ⟨h1, h2⟩⟩

theorem toUpper_of_isUpper (c : Char) (h : c.isUpper = true) : c.toUpper = c := by
  have h90 : c.toNat ≤ 90 := ((isUpper_toNat c).mp h).2
  unfold Char.toUpper
  rw [if_neg]
  rintro ⟨h97, -⟩
  omega

theorem isAlpha_of_isUpper (c : Char) (h : c.isUpper = true) : c.isAlpha = true := by
  simp [Char.isAlpha, h]

theorem upVal_foldl (l : List Char) (a : Nat) :
    l.foldl (fun v c => v * 26 + (c.toNat - 64)) a = a * 26 ^ l.length + upVal l := by
  induction l generalizing a with
  | nil => simp [upVal]
  | cons c t ih =>
    rw [List.foldl_cons, ih]
    have h2 : upVal (c :: t) = (c.toNat - 64) * 26 ^ t.length + upVal t := by
      rw [show upVal (c :: t) =
        t.foldl (fun v c => v * 26 + (c.toNat - 64)) (0 * 26 + (c.toNat - 64)) from rfl,
        ih]
      ring
    rw [h2, List.length_cons]
    ring

theorem upVal_cons (c : Char) (t : List Char) :
    upVal (c :: t) = (c.toNat - 64) * 26 ^ t.length + upVal t := by
  rw [show upVal (c :: t) =
    t.foldl (fun v c => v * 26 + (c.toNat - 64)) (0 * 26 + (c.toNat - 64)) from rfl,
    upVal_foldl]
  ring

theorem lo_mul (n : Nat) : 25 * lo n + 1 = 26 ^ n := by
  induction n with
  | zero => rfl
  | succ n ih =>
    rw [lo, pow_succ, ← ih]
    ring

theorem lo_strictMono : StrictMono lo := by
  apply strictMono_nat_of_lt_succ
  intro n
  rw [lo]
  omega

theorem upVal_bounds (l : List Char) (h : ∀ c ∈ l, c.isUpper = true) :
    lo l.length ≤ upVal l ∧ upVal l ≤ 26 * lo l.length := by
  induction l with
  | nil => simp [upVal, lo]
  | cons c t ih =>
    obtain ⟨ih1, ih2⟩ := ih (fun c' hc' => h c' (List.mem_cons_of_mem _ hc'))
    have hd := (isUpper_toNat c).mp (h c (List.mem_cons_self c t))
    have h26 := lo_mul t.length
    rw [upVal_cons, List.length_cons, lo]
    constructor
    · have h1 : 26 ^ t.length ≤ (c.toNat - 64) * 26 ^ t.length :=
        Nat.le_mul_of_pos_left _ (by omega)
      omega
    · have h2 : (c.toNat - 64) * 26 ^ t.length ≤ 26 * 26 ^ t.length :=
        Nat.mul_le_mul_right _ (by omega)
      omega

theorem upVal_lt_of_length_lt (l1 l2 : List Char)
    (h1 : ∀ c ∈ l1, c.isUpper = true) (h2 : ∀ c ∈ l2, c.isUpper = true)
    (hlen : l1.length < l2.length) : upVal l1 < upVal l2 := by
  have b1 := (upVal_bounds l1 h1).2
  have b2 := (upVal_bounds l2 h2).1
  have hmono : lo (l1.length + 1) ≤ lo l2.length := lo_strictMono.monotone hlen
  simp only [lo] at hmono
  omega

theorem upVal_lt_of_lex : ∀ {l1 l2 : List Char}, List.Lex (· < ·) l1 l2 →
    l1.length = l2.length → (∀ c ∈ l1, c.isUpper = true) →
    (∀ c ∈ l2, c.isUpper = true) → upVal l1 < upVal l2 := by
  intro l1 l2 hlex
  induction hlex with
  | nil =>
    intro hlen _ _
    simp at hlen
  | @cons a l1' l2' htail ih =>
    intro hlen h1 h2
    rw [upVal_cons, upVal_cons]
    have hlen' : l1'.length = l2'.length := by simpa using hlen
    rw [hlen']
    have := ih hlen' (fun c hc => h1 c (List.mem_cons_of_mem _ hc))
      (fun c hc => h2 c (List.mem_cons_of_mem _ hc))
    omega
  | @rel a l1' b l2' hab =>
    intro hlen h1 h2
    rw [upVal_cons, upVal_cons]
    have hlen' : l1'.length = l2'.length := by simpa using hlen
    rw [hlen']
    have ha := (isUpper_toNat a).mp (h1 a (List.mem_cons_self _ _))
    have hb := (isUpper_toNat b).mp (h2 b (List.mem_cons_self _ _))
    have hab' : a.toNat < b.toNat := (char_lt_toNat a b).mp hab
    have hb1 := (upVal_bounds l1' (fun c hc => h1 c (List.mem_cons_of_mem _ hc))).2
    have hb2 := (upVal_bounds l2' (fun c hc => h2 c (List.mem_cons_of_mem _ hc))).1
    have h26 := lo_mul l2'.length
    rw [hlen'] at hb1
    have hstep : ((a.toNat - 64) + 1) * 26 ^ l2'.length ≤
        (b.toNat - 64) * 26 ^ l2'.length :=
      Nat.mul_le_mul_right _ (by omega)
    rw [add_mul, one_mul] at hstep
    omega

theorem lex_total_of_ne : ∀ (l1 l2 : List Char), l1.length = l2.length →
    l1 ≠ l2 → List.Lex (· < ·) l1 l2 ∨ List.Lex (· < ·) l2 l1 := by
  intro l1
  induction l1 with
  | nil =>
    intro l2 hlen hne
    cases l2 with
    | nil => exact absurd rfl hne
    | cons b t => simp at hlen
  | cons a t1 ih =>
    intro l2 hlen hne
    cases l2 with
    | nil => simp at hlen
    | cons b t2 =>
      rcases lt_trichotomy a b with hab | hab | hab
      · exact Or.inl (List.Lex.rel hab)
      · subst hab
        have ht : t1 ≠ t2 := fun h => hne (by rw [h])
        rcases ih t2 (by simpa using hlen) ht with h | h
        · exact Or.inl (List.Lex.cons h)
        · exact Or.inr (List.Lex.cons h)
      · exact Or.inr (List.Lex.rel hab)

theorem col_index_eq (s : String) :
    col_index s = (((s.data.filter Char.isAlpha).foldl
      (fun v c => v * 26 + (c.toUpper.toNat - 64)) 0 : Nat) : Int) - 1 := rfl

theorem col_index_upperRun (s : String) (h : ∀ c ∈ s.data, c.isUpper = true) :
    col_index s = (upVal s.data : Int) - 1 := by
  rw [col_index_eq]
  have hfilter : s.data.filter Char.isAlpha = s.data :=
    List.filter_eq_self.mpr (fun c hc => isAlpha_of_isUpper c (h c hc))
  rw [hfilter]
  have hcong : ∀ (l : List Char), (∀ c ∈ l, c.isUpper = true) → ∀ a : Nat,
      l.foldl (fun v c => v * 26 + (c.toUpper.toNat - 64)) a =
      l.foldl (fun v c => v * 26 + (c.toNat - 64)) a := by
    intro l
    induction l with
    | nil => intro _ _; rfl
    | cons c t ihl =>
      intro hl a
      rw [List.foldl_cons, List.foldl_cons,
        toUpper_of_isUpper c (hl c (List.mem_cons_self _ _)),
        ihl (fun c' hc' => hl c' (List.mem_cons_of_mem _ hc'))]
  rw [hcong s.data h 0]
  rfl

/-! ## C5: `col_index` is injective and shortlex-monotone on letter runs -/

/-- C5: on nonempty uppercase letter runs, ordered by length then
lexicographically, `col_index` is strictly order-preserving, and it is
injective on such runs. -/
theorem col_index_strict_mono :
    (∀ s1 s2 : String, upperRun s1 → upperRun s2 → shortlexLt s1 s2 →
      col_index s1 < col_index s2) ∧
    (∀ s1 s2 : String, upperRun s1 → upperRun s2 → s1 ≠ s2 →
      col_index s1 ≠ col_index s2) := by
  have key : ∀ s1 s2 : String, upperRun s1 → upperRun s2 → shortlexLt s1 s2 →
      col_index s1 < col_index s2 := by
    intro s1 s2 h1 h2 hlt
    rw [col_index_upperRun s1 h1.2, col_index_upperRun s2 h2.2]
    have hv : upVal s1.data < upVal s2.data := by
      rcases hlt with hlen | ⟨hlen, hlex⟩
      · exact upVal_lt_of_length_lt _ _ h1.2 h2.2 hlen
      · exact upVal_lt_of_lex hlex hlen h1.2 h2.2
    omega
  refine ⟨key, fun s1 s2 h1 h2 hne => ?_⟩
  have hdata : s1.data ≠ s2.data := by
    intro h
    apply hne
    cases s1
    cases s2
    exact congrArg String.mk h
  rcases Nat.lt_trichotomy s1.data.length s2.data.length with hl | hl | hl
  · exact ne_of_lt (key s1 s2 h1 h2 (Or.inl hl))
  · rcases lex_total_of_ne s1.data s2.data hl hdata with h | h
    · exact ne_of_lt (key s1 s2 h1 h2 (Or.inr ⟨hl, h⟩))
    · exact (ne_of_lt (key s2 s1 h2 h1 (Or.inr ⟨hl.symm, h⟩))).symm
  · exact (ne_of_lt (key s2 s1 h2 h1 (Or.inl hl))).symm

/-- Witness for C5 at the runs `"Z"` and `"AA"` (shorter before longer). -/
theorem col_index_strict_mono_witness :
    col_index "Z" < col_index "AA" ∧ col_index "Z" ≠ col_index "AA" :=
  ⟨col_index_strict_mono.1 "Z" "AA" ⟨by decide, by decide⟩ ⟨by decide, by decide⟩
      (Or.inl (by decide)),
   col_index_strict_mono.2 "Z" "AA" ⟨by decide, by decide⟩ ⟨by decide, by decide⟩
      (by decide)⟩

end RankCourses
